import Mathlib

/-!
Verification of `interpretdl/interpreter/smooth_grad.py`
(SmoothGradInterpreter.interpret and SmoothGradNLPInterpreter.interpret).

Arrays are modelled as lists of rationals: a batch is a list of samples,
each sample flattened to a list of rationals (the reductions in the source
run over every axis except the sample axis, so only the flattened contents
of each sample matter).  The stochastic draw `np.random.normal(0.0, std, shape)`
is modelled as `std * z` where `z` is a standard-normal draw supplied by an
oracle `randn : iteration -> sample -> element -> Rat`; in particular a zero
`std` yields exactly zero noise, as numpy does.  Floating point is modelled
by exact rationals, except that division by zero (numpy `0/0 = nan`,
`x/0 = inf`) is modelled by `Option Rat` with `none` for the non-finite
results.  The externally supplied `self.predict_fn` is a parameter; it takes
a call index so that stateful models are covered.
-/

namespace SmoothGrad

/-- A model-ready tensor batch: one flattened list of rationals per sample. -/
abbrev Batch := List (List ℚ)

/-- numpy elementwise `+` on equally-shaped arrays. -/
def addBatch (a b : Batch) : Batch :=
  List.zipWith (List.zipWith (· + ·)) a b

/-- `np.zeros_like` on a batch. -/
def zerosLike (a : Batch) : Batch :=
  a.map (fun s => s.map (fun _ => (0 : ℚ)))

/-- `np.max` over a (nonempty) flattened sample. -/
def listMax : List ℚ → ℚ
  | [] => 0
  | x :: xs => xs.foldl max x

/-- `np.min` over a (nonempty) flattened sample. -/
def listMin : List ℚ → ℚ
  | [] => 0
  | x :: xs => xs.foldl min x

/-- numpy division with non-finite results (`0/0 = nan`, `x/0 = +-inf`)
modelled as `none`. -/
def npDiv (x q : ℚ) : Option ℚ :=
  if q = 0 then none else some (x / q)

/-- `np.float32(np.random.normal(0.0, std, (1,) + d.shape))` for one sample:
a sample-shaped array of centered Gaussian draws of standard deviation `std`,
modelled as `std * z` over standard-normal oracle draws `z`. -/
def noiseSample (randn : ℕ → ℕ → ℕ → ℚ) (i j : ℕ) (std : ℚ) (d : List ℚ) : List ℚ :=
  (List.range d.length).map (fun k => std * randn i j k)

/-- `np.concatenate([np.random.normal(0.0, stds[j], (1,)+d.shape) for j, d in enumerate(data)])`:
the per-iteration noise batch, traversing `stds` and `data` in parallel with
the running sample index `j`. -/
def noiseBatchAux (randn : ℕ → ℕ → ℕ → ℚ) (i : ℕ) : ℕ → List ℚ → Batch → Batch
  | _, _, [] => []
  | _, [], _ :: _ => []
  | j, s :: ss, d :: ds => noiseSample randn i j s d :: noiseBatchAux randn i (j + 1) ss ds

def noiseBatch (randn : ℕ → ℕ → ℕ → ℚ) (i : ℕ) (stds : List ℚ) (data : Batch) : Batch :=
  noiseBatchAux randn i 0 stds data

/-- The vision `self.predict_fn(data, labels)` callback:
call index, batch, labels (possibly `None`) to
`(gradients, predicted_label, predicted_proba)`. -/
abbrev PredictFn := ℕ → Batch → Option (List ℤ) → Batch × List ℤ × List ℚ

/-- One recorded invocation of `self.predict_fn` inside the sampling loop or
the baseline step. -/
structure VisionCall where
  input : Batch
  labels : Option (List ℤ)
  deriving DecidableEq

/-- What `SmoothGradInterpreter.interpret` produces: the returned
`avg_gradients`, the full trace of `predict_fn` invocations in order, and the
intermediate values the method stores on `self`. -/
structure VisionResult where
  explanation : List (List (Option ℚ))
  calls : List VisionCall
  resolvedLabels : List ℤ
  stds : List ℚ
  predicted_label : List ℤ
  predicted_proba : List ℚ
  deriving DecidableEq

/-- Lines 75-80 of the source: `_, predicted_label, _ = self.predict_fn(data, labels)`
followed by `if labels is None: labels = predicted_label`. -/
def resolveLabels (predict_fn : PredictFn) (data : Batch) (labels : Option (List ℤ)) : List ℤ :=
  match labels with
  | none => (predict_fn 0 data labels).2.1
  | some ls => ls

/-- Line 84 of the source:
`stds = noise_amount * (np.max(data, axis=max_axis) - np.min(data, axis=max_axis))`
where `max_axis` is every axis except the sample axis. -/
def stdsOf (noise_amount : ℚ) (data : Batch) : List ℚ :=
  data.map (fun d => noise_amount * (listMax d - listMin d))

/-- Lines 88-90 of the source: `_noised_data = data + noise` for loop
iteration `i`. -/
def sgNoised (randn : ℕ → ℕ → ℕ → ℚ) (i : ℕ) (stds : List ℚ) (data : Batch) : Batch :=
  addBatch data (noiseBatch randn i stds data)

/-- Line 91 of the source: the gradients returned by
`self.predict_fn(_noised_data, labels)` at loop iteration `i` (call index
`i + 1`: call `0` is the label-resolution call). -/
def sgGrad (predict_fn : PredictFn) (randn : ℕ → ℕ → ℕ → ℚ)
    (stds : List ℚ) (labels1 : List ℤ) (data : Batch) (i : ℕ) : Batch :=
  (predict_fn (i + 1) (sgNoised randn i stds data) (some labels1)).1

/-- Shallow embedding of `SmoothGradInterpreter.interpret`
(src/interpretdl/interpreter/smooth_grad.py, lines 67-115), starting from the
model-ready tensor `data` produced by `images_transform_pipeline` (the image
decoding itself is an external collaborator).  `np.array(labels).reshape((bsz,))`
raises `ValueError` when the label count differs from the batch size; that
failure is the `Except.error` branch. -/
def interpret (predict_fn : PredictFn) (randn : ℕ → ℕ → ℕ → ℚ)
    (data : Batch) (labels : Option (List ℤ))
    (noise_amount : ℚ) (n_samples : ℕ) : Except String VisionResult :=
  let bsz := data.length
  -- obtain the labels (and initialization).
  let base := predict_fn 0 data labels
  let predicted_label := base.2.1
  let predicted_proba := base.2.2
  let labels1 := resolveLabels predict_fn data labels
  if labels1.length ≠ bsz then
    Except.error "ValueError: cannot reshape array"
  else
    let stds := stdsOf noise_amount data
    -- the sampling loop, accumulating gradients and the call trace
    let step := fun (acc : Batch × List VisionCall) (i : ℕ) =>
      (addBatch acc.1 (sgGrad predict_fn randn stds labels1 data i),
       acc.2 ++ [⟨sgNoised randn i stds data, some labels1⟩])
    let looped := (List.range n_samples).foldl step (zerosLike data, [])
    let avg_gradients := looped.1.map (List.map (fun x => npDiv x (n_samples : ℚ)))
    Except.ok
      { explanation := avg_gradients
        calls := ⟨data, labels⟩ :: looped.2
        resolvedLabels := labels1
        stds := stds
        predicted_label := predicted_label
        predicted_proba := predicted_proba }

/-- The accumulated `total_gradients` after the full sampling loop. -/
def sgTotal (predict_fn : PredictFn) (randn : ℕ → ℕ → ℕ → ℚ)
    (stds : List ℚ) (labels1 : List ℤ) (data : Batch) (n_samples : ℕ) : Batch :=
  (List.range n_samples).foldl
    (fun acc i => addBatch acc (sgGrad predict_fn randn stds labels1 data i))
    (zerosLike data)

/-! ### NLP variant (`SmoothGradNLPInterpreter.interpret`, lines 143-208) -/

/-- What a user-supplied `text_to_input_fn` can hand back, as the two tests at
line 181 of the source see it: an array-like value carrying a `shape`
attribute (iterating it yields its elements along the first axis), an
`Iterable` without a `shape` attribute (a tuple or list of components), or a
non-iterable object, for which `tuple(model_input)` raises `TypeError`. -/
inductive TextFnOut (α : Type u) where
  | withShape (elems : List α)
  | iterNoShape (elems : List α)
  | nonIter
  deriving DecidableEq

/-- Lines 181-184 of the source:
`if isinstance(model_input, Iterable) and not hasattr(model_input, 'shape'):
model_input = tuple(inp for inp in model_input) else: model_input =
tuple(model_input, )` — note the trailing comma sits inside the call, so the
else branch is `tuple(model_input)`, which iterates the value. -/
def toModelInput : TextFnOut α → Except String (List α)
  | .iterNoShape es => Except.ok es
  | .withShape es => Except.ok es
  | .nonIter => Except.error "TypeError: object is not iterable"

/-- The NLP `self.predict_fn(model_input, label, noise_amount)` callback:
call index, model input tuple, label (possibly `None`), `noise_amount`
(possibly `None`) to `(gradients, label, _, proba)`. -/
abbrev NLPPredictFn (α : Type u) := ℕ → List α → Option (List ℤ) → Option ℚ → List ℚ × List ℤ × Unit × ℚ

/-- One recorded invocation of the NLP `self.predict_fn`. -/
structure NLPCall (α : Type u) where
  input : List α
  label : Option (List ℤ)
  noise_amount : Option ℚ
  deriving DecidableEq

/-- What `SmoothGradNLPInterpreter.interpret` produces: the returned
`sg_gradients`, the model input tuple, the label fixed by the baseline call,
and the full trace of `predict_fn` invocations in order. -/
structure NLPResult (α : Type u) where
  explanation : List (Option ℚ)
  modelInput : List α
  fixedLabel : List ℤ
  calls : List (NLPCall α)
  predicted_proba : ℚ
  deriving DecidableEq

/-- Lines 170-177 of the source: when a `tokenizer` is given, replace
`text_to_input_fn` by the wrapper that tokenizes and batches; otherwise keep
the user-supplied `text_to_input_fn`.  The `none`/`none` case is unreachable
behind the assert at line 167. -/
def nlpEff (tokenizer : Option (String → List α))
    (text_to_input_fn : Option (String → TextFnOut α)) : String → TextFnOut α :=
  match tokenizer with
  | some tok => fun t => TextFnOut.iterNoShape (tok t)
  | none =>
    match text_to_input_fn with
    | some f => f
    | none => fun _ => TextFnOut.nonIter

/-- Line 193 of the source: the gradients returned by
`self.predict_fn(model_input, label, noise_amount=noise_amount)` at loop
iteration `i` (call index `i + 1`: call `0` is the baseline call). -/
def nlpGrad (predict_fn : NLPPredictFn α) (model_input : List α)
    (label1 : List ℤ) (noise_amount : ℚ) (i : ℕ) : List ℚ :=
  (predict_fn (i + 1) model_input (some label1) (some noise_amount)).1

/-- Shallow embedding of `SmoothGradNLPInterpreter.interpret`
(src/interpretdl/interpreter/smooth_grad.py, lines 143-208).  A `tokenizer`
is modelled by the tuple of batched arrays its wrapper at lines 171-175
produces (`tuple([np.array([v]) for v in encoded_inputs.values()])`), which
is an `Iterable` without a `shape` attribute.  The failed
`assert (tokenizer is None) + (text_to_input_fn is None) == 1` is the
`Except.error` carrying its message. -/
def nlpInterpret (tokenizer : Option (String → List α))
    (text_to_input_fn : Option (String → TextFnOut α))
    (predict_fn : NLPPredictFn α) (raw_text : String) (label : Option (List ℤ))
    (noise_amount : ℚ) (n_samples : ℕ) : Except String (NLPResult α) :=
  if (if tokenizer.isNone then 1 else 0) + (if text_to_input_fn.isNone then 1 else 0) ≠ 1 then
    Except.error "only one of them should be given."
  else
    -- tokenizer to text_to_input_fn.
    match toModelInput (nlpEff tokenizer text_to_input_fn raw_text) with
    | Except.error e => Except.error e
    | Except.ok model_input =>
      let base := predict_fn 0 model_input label none
      let gradients := base.1
      let label1 := base.2.1
      let proba := base.2.2.2
      -- SG
      let step := fun (acc : List ℚ × List (NLPCall α)) (i : ℕ) =>
        (List.zipWith (· + ·) acc.1 (nlpGrad predict_fn model_input label1 noise_amount i),
         acc.2 ++ [⟨model_input, some label1, some noise_amount⟩])
      let looped := (List.range n_samples).foldl step (gradients.map (fun _ => (0 : ℚ)), [])
      let sg_gradients := looped.1.map (fun x => npDiv x (n_samples : ℚ))
      Except.ok
        { explanation := sg_gradients
          modelInput := model_input
          fixedLabel := label1
          calls := ⟨model_input, label, none⟩ :: looped.2
          predicted_proba := proba }

/-- The accumulated `total_gradients` of the NLP loop, starting from
`np.zeros_like(gradients)` of the baseline gradients. -/
def nlpTotal (predict_fn : NLPPredictFn α) (model_input : List α)
    (label : Option (List ℤ)) (label1 : List ℤ) (noise_amount : ℚ) (n_samples : ℕ) : List ℚ :=
  (List.range n_samples).foldl
    (fun acc i => List.zipWith (· + ·) acc (nlpGrad predict_fn model_input label1 noise_amount i))
    ((predict_fn 0 model_input label none).1.map (fun _ => (0 : ℚ)))

/-! ### Store-passing model of the vision loop, for the frame/aliasing claims

numpy distinguishes operations that allocate a fresh array (`data + noise`,
`np.concatenate`, `np.zeros_like`, `total_gradients / n_samples`) from the
single in-place mutation in the method, `total_gradients += gradients`.  The
heap maps array identifiers to batch values; every allocating numpy call gets
a fresh identifier, and `+=` writes through an existing identifier. -/

structure Heap where
  mem : ℕ → Batch
  next : ℕ

/-- Allocate a fresh array holding `v`, returning the new heap and its id. -/
def Heap.alloc (h : Heap) (v : Batch) : Heap × ℕ :=
  (⟨Function.update h.mem h.next v, h.next + 1⟩, h.next)

/-- In-place write through an existing array id (`+=`). -/
def Heap.write (h : Heap) (r : ℕ) (v : Batch) : Heap :=
  ⟨Function.update h.mem r v, h.next⟩

/-- One iteration of the SmoothGrad loop in the store-passing model:
allocate the noise batch, allocate `_noised_data = data + noise`, receive the
gradients as a fresh array from `predict_fn`, then mutate the accumulator in
place (`total_gradients += gradients`). -/
def sgHeapStep (predict_fn : PredictFn) (randn : ℕ → ℕ → ℕ → ℚ)
    (stds : List ℚ) (labels1 : List ℤ) (dataRef totalRef : ℕ) (i : ℕ) (h : Heap) : Heap :=
  let an := h.alloc (noiseBatch randn i stds (h.mem dataRef))
  let h1 := an.1
  let noiseRef := an.2
  let ad := h1.alloc (addBatch (h1.mem dataRef) (h1.mem noiseRef))
  let h2 := ad.1
  let noisedRef := ad.2
  let ag := h2.alloc (predict_fn (i + 1) (h2.mem noisedRef) (some labels1)).1
  let h3 := ag.1
  let gradRef := ag.2
  h3.write totalRef (addBatch (h3.mem totalRef) (h3.mem gradRef))

/-- `SmoothGradInterpreter.interpret` in the store-passing model.  Returns
the final heap, the id of the preprocessed batch, the id of the accumulator
`total_gradients`, and the id of the returned `avg_gradients`. -/
def interpretHeap (predict_fn : PredictFn) (randn : ℕ → ℕ → ℕ → ℚ)
    (data : Batch) (labels : Option (List ℤ))
    (noise_amount : ℚ) (n_samples : ℕ) : Except String (Heap × ℕ × ℕ × ℕ) :=
  let h0 : Heap := ⟨fun _ => [], 0⟩
  let adata := h0.alloc data
  let h1 := adata.1
  let dataRef := adata.2
  let labels1 := resolveLabels predict_fn (h1.mem dataRef) labels
  if labels1.length ≠ (h1.mem dataRef).length then
    Except.error "ValueError: cannot reshape array"
  else
    let stds := stdsOf noise_amount (h1.mem dataRef)
    let atotal := h1.alloc (zerosLike (h1.mem dataRef))
    let h2 := atotal.1
    let totalRef := atotal.2
    let h3 := (List.range n_samples).foldl
      (fun h i => sgHeapStep predict_fn randn stds labels1 dataRef totalRef i h) h2
    let aavg := h3.alloc ((h3.mem totalRef).map (List.map (fun x => x / (n_samples : ℚ))))
    Except.ok (aavg.1, dataRef, totalRef, aavg.2)

/-! ### Helper lemmas -/

instance {ε : Type u} {α : Type v} [DecidableEq ε] [DecidableEq α] :
    DecidableEq (Except ε α) := fun a b =>
  match a, b with
  | Except.ok x, Except.ok y =>
    if h : x = y then isTrue (by rw [h]) else isFalse (by simp [h])
  | Except.error x, Except.error y =>
    if h : x = y then isTrue (by rw [h]) else isFalse (by simp [h])
  | Except.ok _, Except.error _ => isFalse (by simp)
  | Except.error _, Except.ok _ => isFalse (by simp)

/-- A fold that accumulates a value and appends to a trace splits into the
value fold and the mapped trace. -/
theorem foldl_pair {α : Type u} {γ : Type v} (f : α → ℕ → α) (g : ℕ → γ) :
    ∀ (l : List ℕ) (a : α) (b : List γ),
      l.foldl (fun p i => (f p.1 i, p.2 ++ [g i])) (a, b) = (l.foldl f a, b ++ l.map g) := by
  intro l
  induction l with
  | nil => intro a b; simp
  | cons x xs ih => intro a b; simp [ih]

/-- Unfolding of `interpret` on the non-error branch. -/
theorem interpret_eq_ok (predict_fn : PredictFn) (randn : ℕ → ℕ → ℕ → ℚ)
    (data : Batch) (labels : Option (List ℤ)) (noise_amount : ℚ) (n_samples : ℕ)
    (hlab : (resolveLabels predict_fn data labels).length = data.length) :
    interpret predict_fn randn data labels noise_amount n_samples = Except.ok
      { explanation :=
          (sgTotal predict_fn randn (stdsOf noise_amount data)
              (resolveLabels predict_fn data labels) data n_samples).map
            (List.map (fun x => npDiv x (n_samples : ℚ)))
        calls := ⟨data, labels⟩ ::
          (List.range n_samples).map (fun i =>
            ⟨sgNoised randn i (stdsOf noise_amount data) data,
             some (resolveLabels predict_fn data labels)⟩)
        resolvedLabels := resolveLabels predict_fn data labels
        stds := stdsOf noise_amount data
        predicted_label := (predict_fn 0 data labels).2.1
        predicted_proba := (predict_fn 0 data labels).2.2 } := by
  unfold interpret
  rw [if_neg (by simp [hlab])]
  dsimp only
  rw [foldl_pair
      (fun acc i => addBatch acc
        (sgGrad predict_fn randn (stdsOf noise_amount data)
          (resolveLabels predict_fn data labels) data i))
      (fun i => (⟨sgNoised randn i (stdsOf noise_amount data) data,
        some (resolveLabels predict_fn data labels)⟩ : VisionCall))]
  rfl

/-- An `Except.ok` result forces the reshape guard to have passed. -/
theorem interpret_ok_length (predict_fn : PredictFn) (randn : ℕ → ℕ → ℕ → ℚ)
    (data : Batch) (labels : Option (List ℤ)) (noise_amount : ℚ) (n_samples : ℕ)
    (r : VisionResult)
    (hres : interpret predict_fn randn data labels noise_amount n_samples = Except.ok r) :
    (resolveLabels predict_fn data labels).length = data.length := by
  by_contra h
  unfold interpret at hres
  rw [if_pos (by simpa using h)] at hres
  exact absurd hres (by simp)

/-- Unfolding of `nlpInterpret` on the non-error branch. -/
theorem nlpInterpret_eq_ok {α : Type u} (tokenizer : Option (String → List α))
    (text_to_input_fn : Option (String → TextFnOut α)) (predict_fn : NLPPredictFn α)
    (raw_text : String) (label : Option (List ℤ)) (noise_amount : ℚ) (n_samples : ℕ)
    (mi : List α)
    (hone : (if tokenizer.isNone then 1 else 0) + (if text_to_input_fn.isNone then 1 else 0) = 1)
    (hmi : toModelInput (nlpEff tokenizer text_to_input_fn raw_text) = Except.ok mi) :
    nlpInterpret tokenizer text_to_input_fn predict_fn raw_text label noise_amount n_samples =
      Except.ok
        { explanation :=
            (nlpTotal predict_fn mi label (predict_fn 0 mi label none).2.1 noise_amount
                n_samples).map (fun x => npDiv x (n_samples : ℚ))
          modelInput := mi
          fixedLabel := (predict_fn 0 mi label none).2.1
          calls := ⟨mi, label, none⟩ ::
            (List.range n_samples).map (fun _ =>
              ⟨mi, some (predict_fn 0 mi label none).2.1, some noise_amount⟩)
          predicted_proba := (predict_fn 0 mi label none).2.2.2 } := by
  unfold nlpInterpret
  rw [if_neg (by simp [hone])]
  rw [hmi]
  dsimp only
  rw [foldl_pair
      (fun acc i => List.zipWith (· + ·) acc
        (nlpGrad predict_fn mi (predict_fn 0 mi label none).2.1 noise_amount i))
      (fun _ => (⟨mi, some (predict_fn 0 mi label none).2.1, some noise_amount⟩ : NLPCall α))]
  rfl

/-- An `Except` that is `isOk` equals `ok` of its payload, extracted with any
default. -/
theorem eq_ok_of_isOk {ε : Type u} {α : Type v} (e : Except ε α) (d : α)
    (h : e.isOk = true) : e = Except.ok ((e.toOption).getD d) := by
  cases e with
  | ok x => rfl
  | error x => simp [Except.isOk, Except.toBool] at h

/-- Batches of equal shape: same number of samples and elementwise equal
sample sizes (a gradient has the shape of the batch it differentiates). -/
def sameShape (a b : Batch) : Prop :=
  a.map List.length = b.map List.length

instance (a b : Batch) : Decidable (sameShape a b) := by
  unfold sameShape
  infer_instance

theorem zerosLike_shape (a : Batch) :
    zerosLike a = (a.map List.length).map (fun n => List.replicate n (0 : ℚ)) := by
  unfold zerosLike
  rw [List.map_map]
  exact List.map_congr_left (fun s _ => by simp [List.map_const'])

theorem zerosLike_eq_of_sameShape {g data : Batch} (h : sameShape g data) :
    zerosLike data = zerosLike g := by
  rw [zerosLike_shape, zerosLike_shape, h]

theorem addBatch_smul_succ (c : ℚ) (g : Batch) :
    addBatch (g.map (List.map (fun x => c * x))) g =
      g.map (List.map (fun x => (c + 1) * x)) := by
  unfold addBatch
  rw [List.zipWith_map_left, List.zipWith_same]
  refine List.map_congr_left (fun s _ => ?_)
  rw [List.zipWith_map_left, List.zipWith_same]
  refine List.map_congr_left (fun x _ => ?_)
  ring

theorem foldl_addBatch_const (g : Batch) (n : ℕ) :
    (List.range n).foldl (fun acc _ => addBatch acc g) (zerosLike g) =
      g.map (List.map (fun x => (n : ℚ) * x)) := by
  induction n with
  | zero =>
    simp only [List.range_zero, List.foldl_nil, Nat.cast_zero]
    unfold zerosLike
    exact List.map_congr_left (fun s _ => List.map_congr_left (fun x _ => by ring))
  | succ n ih =>
    rw [List.range_succ, List.foldl_append, ih, List.foldl_cons, List.foldl_nil,
      addBatch_smul_succ]
    push_cast
    rfl

theorem zipWith_getElem? {α : Type u} {β : Type v} {γ : Type w} (f : α → β → γ)
    (l1 : List α) (l2 : List β) (k : ℕ) (x : α) (y : β)
    (hx : l1[k]? = some x) (hy : l2[k]? = some y) :
    (List.zipWith f l1 l2)[k]? = some (f x y) := by
  rw [List.getElem?_zipWith, hx, hy]

theorem noiseSample_getElem (randn : ℕ → ℕ → ℕ → ℚ) (i j : ℕ) (std : ℚ)
    (d : List ℚ) (k : ℕ) (x : ℚ) (h : d[k]? = some x) :
    (noiseSample randn i j std d)[k]? = some (std * randn i j k) := by
  have hk : k < d.length := (List.getElem?_eq_some.mp h).1
  unfold noiseSample
  rw [List.getElem?_map, List.getElem?_range hk]
  rfl

theorem noiseBatchAux_getElem (randn : ℕ → ℕ → ℕ → ℚ) (i : ℕ) :
    ∀ (data : Batch) (stds : List ℚ) (j0 j : ℕ) (s : ℚ) (d : List ℚ),
      stds[j]? = some s → data[j]? = some d →
      (noiseBatchAux randn i j0 stds data)[j]? = some (noiseSample randn i (j0 + j) s d) := by
  intro data
  induction data with
  | nil => intro stds j0 j s d _ hd; simp at hd
  | cons d0 ds ih =>
    intro stds j0 j s d hs hd
    cases stds with
    | nil => simp at hs
    | cons s0 ss =>
      cases j with
      | zero =>
        rw [List.getElem?_cons_zero] at hs hd
        cases hs
        cases hd
        show (noiseSample randn i j0 s d0 :: noiseBatchAux randn i (j0 + 1) ss ds)[0]? = _
        rw [List.getElem?_cons_zero, Nat.add_zero]
      | succ j' =>
        rw [List.getElem?_cons_succ] at hs hd
        have := ih ss (j0 + 1) j' s d hs hd
        unfold noiseBatchAux
        rw [List.getElem?_cons_succ, this]
        have harith : j0 + 1 + j' = j0 + (j' + 1) := by omega
        rw [harith]

/-- The element `(j, k)` of iteration `i`'s noised batch is the original
element plus `stds[j] * randn i j k`. -/
theorem sgNoised_getElem (randn : ℕ → ℕ → ℕ → ℚ) (i : ℕ) (noise_amount : ℚ)
    (data : Batch) (j k : ℕ) (d : List ℚ) (x : ℚ)
    (hj : data[j]? = some d) (hk : d[k]? = some x) :
    ((sgNoised randn i (stdsOf noise_amount data) data)[j]?.bind (fun s => s[k]?)) =
      some (x + noise_amount * (listMax d - listMin d) * randn i j k) := by
  have hstd : (stdsOf noise_amount data)[j]? = some (noise_amount * (listMax d - listMin d)) := by
    unfold stdsOf
    rw [List.getElem?_map, hj]
    rfl
  have hnoise : (noiseBatch randn i (stdsOf noise_amount data) data)[j]? =
      some (noiseSample randn i j (noise_amount * (listMax d - listMin d)) d) := by
    unfold noiseBatch
    rw [noiseBatchAux_getElem randn i data _ 0 j _ d hstd hj]
    rw [Nat.zero_add]
  unfold sgNoised addBatch
  rw [zipWith_getElem? _ _ _ j d _ hj hnoise]
  rw [Option.some_bind]
  exact zipWith_getElem? _ _ _ k x _ hk (noiseSample_getElem randn i j _ d k x hk)

theorem zipWith_add_all_zero :
    ∀ (d l : List ℚ), d.length ≤ l.length → (∀ y ∈ l, y = 0) →
      List.zipWith (· + ·) d l = d := by
  intro d
  induction d with
  | nil => intro l _ _; rfl
  | cons x xs ih =>
    intro l hlen hzero
    cases l with
    | nil => simp at hlen
    | cons y ys =>
      have hy : y = 0 := hzero y (List.mem_cons_self y ys)
      have : List.zipWith (· + ·) xs ys = xs :=
        ih ys (by simpa using hlen) (fun z hz => hzero z (List.mem_cons_of_mem y hz))
      simp [hy, this]

theorem noiseSample_length (randn : ℕ → ℕ → ℕ → ℚ) (i j : ℕ) (std : ℚ) (d : List ℚ) :
    (noiseSample randn i j std d).length = d.length := by
  unfold noiseSample
  rw [List.length_map, List.length_range]

theorem addBatch_noiseBatchAux_zero (randn : ℕ → ℕ → ℕ → ℚ) (i : ℕ) :
    ∀ (data : Batch) (stds : List ℚ) (j0 : ℕ),
      stds.length = data.length → (∀ s ∈ stds, s = 0) →
      addBatch data (noiseBatchAux randn i j0 stds data) = data := by
  intro data
  induction data with
  | nil => intro stds j0 _ _; rfl
  | cons d ds ih =>
    intro stds j0 hlen hzero
    cases stds with
    | nil => simp at hlen
    | cons s ss =>
      have hs : s = 0 := hzero s (List.mem_cons_self s ss)
      show (List.zipWith (· + ·) d (noiseSample randn i j0 s d) ::
        addBatch ds (noiseBatchAux randn i (j0 + 1) ss ds)) = d :: ds
      rw [ih ss (j0 + 1) (by simpa using hlen)
          (fun z hz => hzero z (List.mem_cons_of_mem s hz))]
      rw [zipWith_add_all_zero d _ (by rw [noiseSample_length])
          (fun y hy => by
            rcases List.mem_map.mp hy with ⟨k, _, hk⟩
            rw [← hk, hs, zero_mul])]

/-- With `noise_amount = 0` every per-sample std is `0`, so every noised
batch equals the original batch exactly. -/
theorem sgNoised_zero (randn : ℕ → ℕ → ℕ → ℚ) (i : ℕ) (data : Batch) :
    sgNoised randn i (stdsOf 0 data) data = data := by
  unfold sgNoised noiseBatch
  refine addBatch_noiseBatchAux_zero randn i data _ 0 ?_ ?_
  · unfold stdsOf
    rw [List.length_map]
  · intro s hs
    rcases List.mem_map.mp hs with ⟨d, _, hd⟩
    rw [← hd, zero_mul]

/-- Accumulating equally-long gradient vectors by `zipWith (+)` computes, at
every position `k`, the starting value plus the sum of the addends at `k`. -/
theorem foldl_zipWith_add_getElem :
    ∀ (n : ℕ) (gs : ℕ → List ℚ) (acc : List ℚ) (L : ℕ),
      acc.length = L → (∀ i, i < n → (gs i).length = L) →
      ((List.range n).foldl (fun a i => List.zipWith (· + ·) a (gs i)) acc).length = L ∧
      ∀ k x, acc[k]? = some x →
        ((List.range n).foldl (fun a i => List.zipWith (· + ·) a (gs i)) acc)[k]? =
          some (x + ((List.range n).map (fun i => (gs i).getD k 0)).sum) := by
  intro n
  induction n with
  | zero =>
    intro gs acc L hacc _
    exact ⟨hacc, fun k x hk => by simp [hk]⟩
  | succ n ih =>
    intro gs acc L hacc hgs
    have ihn := ih gs acc L hacc (fun i hi => hgs i (Nat.lt_succ_of_lt hi))
    have hgn : (gs n).length = L := hgs n (Nat.lt_succ_self n)
    constructor
    · rw [List.range_succ, List.foldl_append, List.foldl_cons, List.foldl_nil,
        List.length_zipWith, ihn.1, hgn]
      exact Nat.min_self L
    · intro k x hk
      have hkL : k < L := by
        have h1 := (List.getElem?_eq_some.mp hk).1
        omega
      have hprev := ihn.2 k x hk
      have hkgn : k < (gs n).length := by
        rw [hgn]
        exact hkL
      have hgnk : (gs n)[k]? = some ((gs n).getD k 0) := by
        rw [List.getD_eq_getElem?_getD, List.getElem?_eq_getElem hkgn]
        rfl
      rw [List.range_succ, List.foldl_append, List.foldl_cons, List.foldl_nil]
      rw [zipWith_getElem? _ _ _ k _ _ hprev hgnk]
      rw [List.map_append, List.sum_append]
      simp [add_assoc]

theorem Heap.alloc_mem_lt (h : Heap) (v : Batch) (r : ℕ) (hr : r < h.next) :
    (h.alloc v).1.mem r = h.mem r := by
  show Function.update h.mem h.next v r = h.mem r
  exact Function.update_noteq (Nat.ne_of_lt hr) v h.mem

theorem Heap.write_mem_ne (h : Heap) (tr : ℕ) (v : Batch) (r : ℕ) (hr : r ≠ tr) :
    (h.write tr v).mem r = h.mem r := by
  show Function.update h.mem tr v r = h.mem r
  exact Function.update_noteq hr v h.mem

theorem sgHeapStep_next (predict_fn : PredictFn) (randn : ℕ → ℕ → ℕ → ℚ)
    (stds : List ℚ) (labels1 : List ℤ) (dataRef totalRef i : ℕ) (h : Heap) :
    (sgHeapStep predict_fn randn stds labels1 dataRef totalRef i h).next = h.next + 3 :=
  rfl

/-- One loop iteration only writes through the accumulator id and fresh ids:
every other live id keeps its value. -/
theorem sgHeapStep_mem (predict_fn : PredictFn) (randn : ℕ → ℕ → ℕ → ℚ)
    (stds : List ℚ) (labels1 : List ℤ) (dataRef totalRef i : ℕ) (h : Heap) (r : ℕ)
    (hr : r ≠ totalRef) (hlt : r < h.next) :
    (sgHeapStep predict_fn randn stds labels1 dataRef totalRef i h).mem r = h.mem r := by
  simp only [sgHeapStep, Heap.alloc, Heap.write]
  rw [Function.update_noteq hr, Function.update_noteq (by omega : r ≠ h.next + 1 + 1),
    Function.update_noteq (by omega : r ≠ h.next + 1),
    Function.update_noteq (by omega : r ≠ h.next)]

/-- Across the whole sampling loop, ids other than the accumulator keep their
values, and the allocation frontier only grows. -/
theorem sgHeapLoop_mem (predict_fn : PredictFn) (randn : ℕ → ℕ → ℕ → ℚ)
    (stds : List ℚ) (labels1 : List ℤ) (dataRef totalRef : ℕ) :
    ∀ (l : List ℕ) (h : Heap) (r : ℕ), r ≠ totalRef → r < h.next →
      ((l.foldl (fun hh i => sgHeapStep predict_fn randn stds labels1 dataRef totalRef i hh)
          h).mem r = h.mem r ∧
        h.next ≤ (l.foldl
          (fun hh i => sgHeapStep predict_fn randn stds labels1 dataRef totalRef i hh)
          h).next) := by
  intro l
  induction l with
  | nil => intro h r _ _; exact ⟨rfl, Nat.le_refl _⟩
  | cons a as ih =>
    intro h r hr hlt
    rw [List.foldl_cons]
    have hnext := sgHeapStep_next predict_fn randn stds labels1 dataRef totalRef a h
    have hstep := sgHeapStep_mem predict_fn randn stds labels1 dataRef totalRef a h r hr hlt
    have hrest := ih (sgHeapStep predict_fn randn stds labels1 dataRef totalRef a h) r hr
      (by rw [hnext]; omega)
    exact ⟨hrest.1.trans hstep, Nat.le_trans (by rw [hnext]; omega) hrest.2⟩

/-! ### Concrete stubs used by the witnesses -/

/-- Stub predict function returning the constant gradient `[[5, 7]]`,
predicted label `[0]` and probability `[1]` on every call. -/
def constPf : PredictFn := fun _ _ _ => ([[5, 7]], [0], [1])

/-- Standard-normal oracle that always draws `1`. -/
def oneRandn : ℕ → ℕ → ℕ → ℚ := fun _ _ _ => 1

/-- Stub NLP predict function: constant gradient `[4, 6]`, label `[1]`,
probability `9/10`. -/
def nlpStubPf : NLPPredictFn ℤ := fun _ _ _ _ => ([4, 6], [1], (), 9/10)

/-- Stub tokenizer producing the single batched array `[7]`. -/
def stubTok : String → List ℤ := fun _ => [7]

/-- Stub `text_to_input_fn` returning a tuple (iterable, no shape). -/
def stubTextFn : String → TextFnOut ℤ := fun _ => TextFnOut.iterNoShape [7]

/-- Stub `text_to_input_fn` returning a single array-like value (has `shape`)
with two elements along its first axis. -/
def stubArrFn : String → TextFnOut ℤ := fun _ => TextFnOut.withShape [7, 8]

/-! ### Claims -/

/-- **C1**: for every batch and every stub gradient function that returns the
same constant gradient `g` on every call, `SmoothGradInterpreter.interpret`
returns exactly `g` as the explanation, for any `noise_amount` and any
`n_samples ≥ 1`: the accumulator sums `n_samples` copies of `g` and division
by `n_samples` recovers `g`. -/
theorem c1_constant_stub_average (predict_fn : PredictFn) (randn : ℕ → ℕ → ℕ → ℚ)
    (data : Batch) (labels : Option (List ℤ)) (noise_amount : ℚ) (n_samples : ℕ) (g : Batch)
    (hg : ∀ i x ls, (predict_fn i x ls).1 = g)
    (hshape : sameShape g data)
    (hlab : (resolveLabels predict_fn data labels).length = data.length)
    (hn : 1 ≤ n_samples) :
    Except.map VisionResult.explanation
        (interpret predict_fn randn data labels noise_amount n_samples) =
      Except.ok (g.map (List.map some)) := by
  rw [interpret_eq_ok _ _ _ _ _ _ hlab]
  have htot : sgTotal predict_fn randn (stdsOf noise_amount data)
      (resolveLabels predict_fn data labels) data n_samples =
      g.map (List.map (fun x => (n_samples : ℚ) * x)) := by
    unfold sgTotal
    have hstep : (fun (acc : Batch) (i : ℕ) =>
        addBatch acc (sgGrad predict_fn randn (stdsOf noise_amount data)
          (resolveLabels predict_fn data labels) data i)) =
        fun acc _ => addBatch acc g := by
      funext acc i
      rw [sgGrad, hg]
    rw [hstep, zerosLike_eq_of_sameShape hshape, foldl_addBatch_const]
  have hns : ((n_samples : ℚ)) ≠ 0 := Nat.cast_ne_zero.mpr (by omega)
  simp only [Except.map, htot, List.map_map]
  refine congrArg Except.ok (List.map_congr_left (fun s _ => ?_))
  simp only [Function.comp, List.map_map]
  refine List.map_congr_left (fun x _ => ?_)
  simp only [Function.comp, npDiv, if_neg hns, mul_div_cancel_left₀ _ hns]

/-- Witness for C1: the constant stub gradient `[[5, 7]]` on the batch
`[[1, 2]]` with `noise_amount = 1/2` and `n_samples = 3` comes back exactly. -/
theorem c1_constant_stub_average_witness :
    sameShape [[5, 7]] [[1, 2]] ∧
    (resolveLabels constPf [[1, 2]] none).length = ([[1, 2]] : Batch).length ∧
    (1 : ℕ) ≤ 3 ∧
    Except.map VisionResult.explanation (interpret constPf oneRandn [[1, 2]] none (1/2) 3) =
      Except.ok [[some 5, some 7]] :=
  ⟨by decide, by decide, by decide,
    c1_constant_stub_average constPf oneRandn [[1, 2]] none (1/2) 3 [[5, 7]]
      (fun _ _ _ => rfl) (by decide) (by decide) (by decide)⟩

/-- **C2**: the claim says `interpret` rejects `n_samples <= 0` with a
validation error before the sampling loop.  The code has no such check: at
`n_samples = 0` it returns successfully after a vacuous loop, with the
single label-resolution call as the whole trace, and divides the all-zero
accumulator by `0`, yielding NaN (`none`) in every entry instead of an
error. -/
theorem c2_zero_samples_not_rejected :
    interpret constPf oneRandn [[1, 2]] none (1/10) 0 =
      Except.ok
        { explanation := [[none, none]]
          calls := [⟨[[1, 2]], none⟩]
          resolvedLabels := [0]
          stds := [1/10]
          predicted_label := [0]
          predicted_proba := [1] } := by
  norm_num [interpret, resolveLabels, constPf, stdsOf, zerosLike, npDiv, listMax, listMin,
    List.replicate]

/-- **C3**: in `SmoothGradInterpreter.interpret`, labels are resolved exactly
once before the loop — taken from the caller if supplied, otherwise from the
model's prediction on the unperturbed batch — and every one of the
`n_samples` noisy `predict_fn` calls receives that identical label
sequence. -/
theorem c3_label_fixation (predict_fn : PredictFn) (randn : ℕ → ℕ → ℕ → ℚ)
    (data : Batch) (labels : Option (List ℤ)) (noise_amount : ℚ) (n_samples : ℕ)
    (r : VisionResult)
    (hres : interpret predict_fn randn data labels noise_amount n_samples = Except.ok r) :
    r.resolvedLabels = resolveLabels predict_fn data labels ∧
    (∀ ls, labels = some ls → r.resolvedLabels = ls) ∧
    (labels = none → r.resolvedLabels = (predict_fn 0 data labels).2.1) ∧
    r.calls.head? = some ⟨data, labels⟩ ∧
    r.calls.tail.map VisionCall.labels =
      List.replicate n_samples (some r.resolvedLabels) := by
  have hlab := interpret_ok_length _ _ _ _ _ _ _ hres
  rw [interpret_eq_ok _ _ _ _ _ _ hlab] at hres
  injection hres with hr
  subst hr
  refine ⟨rfl, ?_, ?_, rfl, ?_⟩
  · intro ls h
    subst h
    rfl
  · intro h
    subst h
    rfl
  · dsimp only [List.tail_cons]
    rw [List.map_map]
    have hc : (VisionCall.labels ∘ fun i : ℕ =>
        (⟨sgNoised randn i (stdsOf noise_amount data) data,
          some (resolveLabels predict_fn data labels)⟩ : VisionCall)) =
        fun _ : ℕ => some (resolveLabels predict_fn data labels) := rfl
    rw [hc, List.map_const', List.length_range]

/-- A concrete successful run used by several witnesses. -/
def sampleRun : VisionResult :=
  ((interpret constPf oneRandn [[1, 2]] none 1 2).toOption).getD ⟨[], [], [], [], [], []⟩

/-- Witness for C3 on a concrete run with two noisy samples. -/
theorem c3_label_fixation_witness :
    interpret constPf oneRandn [[1, 2]] none 1 2 = Except.ok sampleRun ∧
    sampleRun.resolvedLabels = resolveLabels constPf [[1, 2]] none ∧
    sampleRun.calls.head? = some ⟨[[1, 2]], none⟩ ∧
    sampleRun.calls.tail.map VisionCall.labels = List.replicate 2 (some sampleRun.resolvedLabels) :=
  have h : interpret constPf oneRandn [[1, 2]] none 1 2 = Except.ok sampleRun :=
    eq_ok_of_isOk _ _ rfl
  ⟨h, (c3_label_fixation constPf oneRandn [[1, 2]] none 1 2 sampleRun h).1,
    (c3_label_fixation constPf oneRandn [[1, 2]] none 1 2 sampleRun h).2.2.2.1,
    (c3_label_fixation constPf oneRandn [[1, 2]] none 1 2 sampleRun h).2.2.2.2⟩

/-- **C4**: for every sample `j`, the Gaussian noise standard deviation used
in every iteration equals `noise_amount * (max(batch[j]) - min(batch[j]))`,
reduced over every axis except the sample axis; the per-sample scale is
computed once from the original unperturbed batch (`r.stds`), and the input
of every noisy call decomposes elementwise as the original element plus that
original-batch scale times the standard-normal draw — never a scale
recomputed from noised data. -/
theorem c4_noise_std_from_original (predict_fn : PredictFn) (randn : ℕ → ℕ → ℕ → ℚ)
    (data : Batch) (labels : Option (List ℤ)) (noise_amount : ℚ) (n_samples : ℕ)
    (r : VisionResult)
    (hres : interpret predict_fn randn data labels noise_amount n_samples = Except.ok r) :
    r.stds = data.map (fun d => noise_amount * (listMax d - listMin d)) ∧
    ∀ i j k d x, i < n_samples → data[j]? = some d → d[k]? = some x →
      (((r.calls.tail.map VisionCall.input)[i]?.bind (fun b => b[j]?)).bind
          (fun s => s[k]?)) =
        some (x + noise_amount * (listMax d - listMin d) * randn i j k) := by
  have hlab := interpret_ok_length _ _ _ _ _ _ _ hres
  rw [interpret_eq_ok _ _ _ _ _ _ hlab] at hres
  injection hres with hr
  subst hr
  refine ⟨rfl, ?_⟩
  intro i j k d x hi hj hk
  dsimp only [List.tail_cons]
  rw [List.map_map]
  have hcall : ((List.range n_samples).map
      ((fun c => VisionCall.input c) ∘ fun i =>
        (⟨sgNoised randn i (stdsOf noise_amount data) data,
          some (resolveLabels predict_fn data labels)⟩ : VisionCall)))[i]? =
      some (sgNoised randn i (stdsOf noise_amount data) data) := by
    rw [List.getElem?_map, List.getElem?_range hi]
    rfl
  rw [hcall, Option.some_bind]
  exact sgNoised_getElem randn i noise_amount data j k d x hj hk

/-- Witness for C4: the concrete run's recorded stds and the `(0,0)` element
of the first noisy input. -/
theorem c4_noise_std_from_original_witness :
    interpret constPf oneRandn [[1, 2]] none 1 2 = Except.ok sampleRun ∧
    sampleRun.stds = ([[1, 2]] : Batch).map (fun d => 1 * (listMax d - listMin d)) ∧
    (((sampleRun.calls.tail.map VisionCall.input)[0]?.bind (fun b => b[0]?)).bind
        (fun s => s[0]?)) =
      some (1 + 1 * (listMax [1, 2] - listMin [1, 2]) * oneRandn 0 0 0) :=
  have h : interpret constPf oneRandn [[1, 2]] none 1 2 = Except.ok sampleRun :=
    eq_ok_of_isOk _ _ rfl
  ⟨h, (c4_noise_std_from_original constPf oneRandn [[1, 2]] none 1 2 sampleRun h).1,
    (c4_noise_std_from_original constPf oneRandn [[1, 2]] none 1 2 sampleRun h).2
      0 0 0 [1, 2] 1 (by decide) rfl rfl⟩

/-- **C7**: for `noise_amount = 0`, every noised sample produced inside the
loop equals the original sample exactly (zero-variance Gaussian noise is
identically zero), so every `predict_fn` call — the baseline and all
`n_samples` noisy ones — receives the unperturbed batch, and the result is
the average of `n_samples` evaluations of the gradient function on the
unperturbed batch. -/
theorem c7_zero_noise_degenerates (predict_fn : PredictFn) (randn : ℕ → ℕ → ℕ → ℚ)
    (data : Batch) (labels : Option (List ℤ)) (n_samples : ℕ) (r : VisionResult)
    (hres : interpret predict_fn randn data labels 0 n_samples = Except.ok r) :
    r.calls.map VisionCall.input = List.replicate (n_samples + 1) data ∧
    r.explanation = ((List.range n_samples).foldl
        (fun acc i => addBatch acc (predict_fn (i + 1) data (some r.resolvedLabels)).1)
        (zerosLike data)).map (List.map (fun x => npDiv x (n_samples : ℚ))) := by
  have hlab := interpret_ok_length _ _ _ _ _ _ _ hres
  rw [interpret_eq_ok _ _ _ _ _ _ hlab] at hres
  injection hres with hr
  subst hr
  constructor
  · dsimp only
    rw [List.map_cons, List.map_map]
    have hc : ((fun c => VisionCall.input c) ∘ fun i : ℕ =>
        (⟨sgNoised randn i (stdsOf 0 data) data,
          some (resolveLabels predict_fn data labels)⟩ : VisionCall)) =
        fun i : ℕ => sgNoised randn i (stdsOf 0 data) data := rfl
    rw [hc]
    have hz : (fun i : ℕ => sgNoised randn i (stdsOf 0 data) data) =
        fun _ : ℕ => data := by
      funext i
      exact sgNoised_zero randn i data
    rw [hz, List.map_const', List.length_range, List.replicate_succ]
  · dsimp only
    unfold sgTotal
    have hstep : (fun (acc : Batch) (i : ℕ) =>
        addBatch acc (sgGrad predict_fn randn (stdsOf 0 data)
          (resolveLabels predict_fn data labels) data i)) =
        fun acc i => addBatch acc
          (predict_fn (i + 1) data (some (resolveLabels predict_fn data labels))).1 := by
      funext acc i
      unfold sgGrad
      rw [sgNoised_zero]
    rw [hstep]

/-- The concrete zero-noise run backing the C7 witness. -/
def zeroRun : VisionResult :=
  ((interpret constPf oneRandn [[1, 2]] none 0 2).toOption).getD ⟨[], [], [], [], [], []⟩

/-- Witness for C7: with `noise_amount = 0` and two samples, both noisy calls
see the unperturbed batch `[[1, 2]]`. -/
theorem c7_zero_noise_degenerates_witness :
    interpret constPf oneRandn [[1, 2]] none 0 2 = Except.ok zeroRun ∧
    zeroRun.calls.map VisionCall.input = List.replicate 3 [[1, 2]] ∧
    zeroRun.explanation = ((List.range 2).foldl
        (fun acc i => addBatch acc (constPf (i + 1) [[1, 2]] (some zeroRun.resolvedLabels)).1)
        (zerosLike [[1, 2]])).map (List.map (fun x => npDiv x (2 : ℚ))) :=
  have h : interpret constPf oneRandn [[1, 2]] none 0 2 = Except.ok zeroRun :=
    eq_ok_of_isOk _ _ rfl
  ⟨h, (c7_zero_noise_degenerates constPf oneRandn [[1, 2]] none 2 zeroRun h).1,
    (c7_zero_noise_degenerates constPf oneRandn [[1, 2]] none 2 zeroRun h).2⟩

/-- **C8**: whenever the supplied labels sequence has length different from
the batch size, `interpret` fails with the reshape `ValueError` rather than
silently broadcasting labels across the batch. -/
theorem c8_label_length_mismatch_fails (predict_fn : PredictFn) (randn : ℕ → ℕ → ℕ → ℚ)
    (data : Batch) (ls : List ℤ) (noise_amount : ℚ) (n_samples : ℕ)
    (h : ls.length ≠ data.length) :
    interpret predict_fn randn data (some ls) noise_amount n_samples =
      Except.error "ValueError: cannot reshape array" := by
  unfold interpret
  dsimp only
  rw [if_pos (show (resolveLabels predict_fn data (some ls)).length ≠ data.length from h)]

/-- Witness for C8: two labels on a one-sample batch are rejected. -/
theorem c8_label_length_mismatch_fails_witness :
    ([0, 1] : List ℤ).length ≠ ([[1]] : Batch).length ∧
    interpret constPf oneRandn [[1]] (some [0, 1]) 1 3 =
      Except.error "ValueError: cannot reshape array" :=
  ⟨by decide, c8_label_length_mismatch_fails constPf oneRandn [[1]] [0, 1] 1 3 (by decide)⟩

/-- **C6**: `SmoothGradNLPInterpreter.interpret` fails with the assertion
message — independently of the model, so before any model or gradient call —
whenever the caller supplies both `tokenizer` and `text_to_input_fn` or
supplies neither; it proceeds past that validation exactly when one of the
two is given. -/
theorem c6_exactly_one_text_source {α : Type u} (tokenizer : Option (String → List α))
    (text_to_input_fn : Option (String → TextFnOut α)) (raw_text : String)
    (label : Option (List ℤ)) (noise_amount : ℚ) (n_samples : ℕ) :
    (tokenizer = none → text_to_input_fn = none →
      ∀ predict_fn : NLPPredictFn α,
        nlpInterpret tokenizer text_to_input_fn predict_fn raw_text label noise_amount
            n_samples =
          Except.error "only one of them should be given.") ∧
    (∀ tok f, tokenizer = some tok → text_to_input_fn = some f →
      ∀ predict_fn : NLPPredictFn α,
        nlpInterpret tokenizer text_to_input_fn predict_fn raw_text label noise_amount
            n_samples =
          Except.error "only one of them should be given.") ∧
    (tokenizer.isNone ≠ text_to_input_fn.isNone →
      ∀ predict_fn : NLPPredictFn α,
        nlpInterpret tokenizer text_to_input_fn predict_fn raw_text label noise_amount
            n_samples ≠
          Except.error "only one of them should be given.") := by
  refine ⟨?_, ?_, ?_⟩
  · intro h1 h2 pf
    subst h1
    subst h2
    rfl
  · intro tok f h1 h2 pf
    subst h1
    subst h2
    rfl
  · intro hne pf
    have hg : ((if tokenizer.isNone then 1 else 0) +
        (if text_to_input_fn.isNone then 1 else 0) : ℕ) = 1 := by
      cases tokenizer <;> cases text_to_input_fn <;> simp_all
    unfold nlpInterpret
    rw [if_neg (by simp [hg])]
    cases ho : nlpEff tokenizer text_to_input_fn raw_text with
    | withShape es => simp [toModelInput]
    | iterNoShape es => simp [toModelInput]
    | nonIter =>
      simp only [toModelInput]
      intro hcontra
      injection hcontra with hmsg
      exact absurd hmsg (by decide)

/-- Witness for C6: neither and both are rejected with the assertion
message; a tokenizer alone gets past the assertion. -/
theorem c6_exactly_one_text_source_witness :
    nlpInterpret (α := ℤ) none none nlpStubPf "text" none 1 2 =
      Except.error "only one of them should be given." ∧
    nlpInterpret (some stubTok) (some stubTextFn) nlpStubPf "text" none 1 2 =
      Except.error "only one of them should be given." ∧
    nlpInterpret (some stubTok) none nlpStubPf "text" none 1 2 ≠
      Except.error "only one of them should be given." :=
  ⟨(c6_exactly_one_text_source none none "text" none 1 2).1 rfl rfl nlpStubPf,
   (c6_exactly_one_text_source (some stubTok) (some stubTextFn) "text" none 1 2).2.1
     stubTok stubTextFn rfl rfl nlpStubPf,
   (c6_exactly_one_text_source (some stubTok) none "text" none 1 2).2.2 (by decide) nlpStubPf⟩

/-- **C5**: `SmoothGradNLPInterpreter.interpret` performs exactly one
baseline `predict_fn` call with `noise_amount = None` — whose returned label
fixes the label used thereafter — then exactly `n_samples` calls with the
caller's real `noise_amount` and that fixed label, and the returned
explanation is, at every valid position, the arithmetic mean of the
gradients of the `n_samples` noisy calls only: the baseline gradient enters
only through the zero initializer's shape and is excluded from the sum. -/
theorem c5_nlp_baseline_then_noisy_mean {α : Type u} (tokenizer : Option (String → List α))
    (text_to_input_fn : Option (String → TextFnOut α)) (predict_fn : NLPPredictFn α)
    (raw_text : String) (label : Option (List ℤ)) (noise_amount : ℚ) (n_samples : ℕ)
    (mi : List α)
    (hone : (if tokenizer.isNone then 1 else 0) +
      (if text_to_input_fn.isNone then 1 else 0) = 1)
    (hmi : toModelInput (nlpEff tokenizer text_to_input_fn raw_text) = Except.ok mi)
    (hlen : ∀ i, (nlpGrad predict_fn mi (predict_fn 0 mi label none).2.1 noise_amount i).length =
      (predict_fn 0 mi label none).1.length) :
    Except.map NLPResult.fixedLabel
        (nlpInterpret tokenizer text_to_input_fn predict_fn raw_text label noise_amount
          n_samples) =
      Except.ok (predict_fn 0 mi label none).2.1 ∧
    Except.map NLPResult.calls
        (nlpInterpret tokenizer text_to_input_fn predict_fn raw_text label noise_amount
          n_samples) =
      Except.ok (⟨mi, label, none⟩ ::
        List.replicate n_samples ⟨mi, some (predict_fn 0 mi label none).2.1, some noise_amount⟩) ∧
    ∀ k x, ((predict_fn 0 mi label none).1)[k]? = some x →
      Except.map (fun r => r.explanation[k]?)
          (nlpInterpret tokenizer text_to_input_fn predict_fn raw_text label noise_amount
            n_samples) =
        Except.ok (some (npDiv
          (((List.range n_samples).map
            (fun i => (nlpGrad predict_fn mi (predict_fn 0 mi label none).2.1 noise_amount
              i).getD k 0)).sum)
          (n_samples : ℚ))) := by
  rw [nlpInterpret_eq_ok tokenizer text_to_input_fn predict_fn raw_text label noise_amount
    n_samples mi hone hmi]
  refine ⟨rfl, ?_, ?_⟩
  · show Except.ok _ = Except.ok _
    rw [List.map_const', List.length_range]
  · intro k x hk
    show Except.ok _ = Except.ok _
    refine congrArg Except.ok ?_
    dsimp only
    rw [List.getElem?_map]
    have hzero : ((predict_fn 0 mi label none).1.map (fun _ => (0 : ℚ)))[k]? = some 0 := by
      rw [List.getElem?_map, hk]
      rfl
    have hfold := (foldl_zipWith_add_getElem n_samples
      (fun i => nlpGrad predict_fn mi (predict_fn 0 mi label none).2.1 noise_amount i)
      ((predict_fn 0 mi label none).1.map (fun _ => (0 : ℚ)))
      (predict_fn 0 mi label none).1.length
      (by rw [List.length_map]) (fun i _ => hlen i)).2 k 0 hzero
    unfold nlpTotal
    rw [hfold, zero_add]
    rfl

/-- Witness for C5 with the stub tokenizer and a constant-gradient stub
model, two noisy samples, at position `0` of the gradient. -/
theorem c5_nlp_baseline_then_noisy_mean_witness :
    Except.map NLPResult.calls (nlpInterpret (some stubTok) none nlpStubPf "t" none (1/3) 2) =
      Except.ok (⟨[7], none, none⟩ ::
        List.replicate 2 ⟨[7], some (nlpStubPf 0 [7] none none).2.1, some (1/3)⟩) ∧
    Except.map (fun r => r.explanation[0]?)
        (nlpInterpret (some stubTok) none nlpStubPf "t" none (1/3) 2) =
      Except.ok (some (npDiv
        (((List.range 2).map
          (fun i => (nlpGrad nlpStubPf [7] (nlpStubPf 0 [7] none none).2.1 (1/3) i).getD 0 0)).sum)
        (2 : ℚ))) :=
  ⟨(c5_nlp_baseline_then_noisy_mean (some stubTok) none nlpStubPf "t" none (1/3) 2 [7]
      (by decide) rfl (fun _ => rfl)).2.1,
   (c5_nlp_baseline_then_noisy_mean (some stubTok) none nlpStubPf "t" none (1/3) 2 [7]
      (by decide) rfl (fun _ => rfl)).2.2 0 4 rfl⟩

/-- **C10**: in `SmoothGradNLPInterpreter.interpret`, when `text_to_input_fn`
returns a single array-like value carrying a `shape` attribute, the model
input passed to `predict_fn` is `tuple(model_input)` — the tuple of the
array's elements along its first axis (here `es`, of length `es.length`) —
not a one-element tuple containing the array itself; a value without a
`shape` attribute is kept as the tuple of its components as returned. -/
theorem c10_array_model_input_unpacked {α : Type u} (f : String → TextFnOut α)
    (predict_fn : NLPPredictFn α) (raw_text : String) (label : Option (List ℤ))
    (noise_amount : ℚ) (n_samples : ℕ) (es : List α)
    (hf : f raw_text = TextFnOut.withShape es) :
    toModelInput (TextFnOut.withShape es) = Except.ok es ∧
    (∀ es2 : List α, toModelInput (TextFnOut.iterNoShape es2) = Except.ok es2) ∧
    Except.map NLPResult.modelInput
        (nlpInterpret none (some f) predict_fn raw_text label noise_amount n_samples) =
      Except.ok es ∧
    Except.map (fun r => r.calls.map NLPCall.input)
        (nlpInterpret none (some f) predict_fn raw_text label noise_amount n_samples) =
      Except.ok (List.replicate (n_samples + 1) es) := by
  have hmi : toModelInput (nlpEff none (some f) raw_text) = Except.ok es := by
    show toModelInput (f raw_text) = Except.ok es
    rw [hf]
    rfl
  rw [nlpInterpret_eq_ok none (some f) predict_fn raw_text label noise_amount n_samples es
    rfl hmi]
  refine ⟨rfl, fun es2 => rfl, rfl, ?_⟩
  show Except.ok _ = Except.ok _
  refine congrArg Except.ok ?_
  dsimp only
  rw [List.map_cons, List.map_map]
  have hc : (NLPCall.input ∘ fun _ : ℕ =>
      (⟨es, some (predict_fn 0 es label none).2.1, some noise_amount⟩ : NLPCall α)) =
      fun _ : ℕ => es := rfl
  rw [hc, List.map_const', List.length_range, List.replicate_succ]

/-- Witness for C10: the array-like stub with first-axis elements `[7, 8]`
is unpacked into the two-element tuple `[7, 8]`, for the model input and
every recorded call. -/
theorem c10_array_model_input_unpacked_witness :
    toModelInput (TextFnOut.withShape ([7, 8] : List ℤ)) = Except.ok [7, 8] ∧
    toModelInput (TextFnOut.iterNoShape ([7, 8] : List ℤ)) = Except.ok [7, 8] ∧
    Except.map NLPResult.modelInput
        (nlpInterpret none (some stubArrFn) nlpStubPf "t" none 1 2) = Except.ok [7, 8] ∧
    Except.map (fun r => r.calls.map NLPCall.input)
        (nlpInterpret none (some stubArrFn) nlpStubPf "t" none 1 2) =
      Except.ok (List.replicate 3 [7, 8]) :=
  ⟨(c10_array_model_input_unpacked stubArrFn nlpStubPf "t" none 1 2 [7, 8] rfl).1,
   (c10_array_model_input_unpacked stubArrFn nlpStubPf "t" none 1 2 [7, 8] rfl).2.1 [7, 8],
   (c10_array_model_input_unpacked stubArrFn nlpStubPf "t" none 1 2 [7, 8] rfl).2.2.1,
   (c10_array_model_input_unpacked stubArrFn nlpStubPf "t" none 1 2 [7, 8] rfl).2.2.2⟩

/-- **C9**: the store-passing model of `interpret` shows the preprocessed
batch is never modified — after the loop and the division, the id holding
the pipeline's tensor still maps to its original value (each iteration
builds fresh noise and a fresh noised copy instead of mutating the batch) —
and the returned `avg_gradients` is a fresh array whose id differs from the
accumulator's and from the batch's. -/
theorem c9_batch_immutable_output_fresh (predict_fn : PredictFn) (randn : ℕ → ℕ → ℕ → ℚ)
    (data : Batch) (labels : Option (List ℤ)) (noise_amount : ℚ) (n_samples : ℕ)
    (h : Heap) (dRef tRef aRef : ℕ)
    (hres : interpretHeap predict_fn randn data labels noise_amount n_samples =
      Except.ok (h, dRef, tRef, aRef)) :
    h.mem dRef = data ∧ aRef ≠ tRef ∧ aRef ≠ dRef ∧ tRef ≠ dRef := by
  unfold interpretHeap at hres
  dsimp only [Heap.alloc] at hres
  simp only [Function.update_same] at hres
  split at hres
  · exact absurd hres (by simp)
  · injection hres with htup
    injection htup with hH htup2
    injection htup2 with hD htup3
    injection htup3 with hT hA
    subst hH
    subst hD
    subst hT
    subst hA
    set F := List.foldl
      (fun hh i => sgHeapStep predict_fn randn (stdsOf noise_amount data)
        (resolveLabels predict_fn data labels) 0 (0 + 1) i hh)
      (⟨Function.update (Function.update (fun _ => []) 0 data) (0 + 1) (zerosLike data),
        0 + 1 + 1⟩ : Heap)
      (List.range n_samples) with hF
    have hloop := sgHeapLoop_mem predict_fn randn (stdsOf noise_amount data)
      (resolveLabels predict_fn data labels) 0 (0 + 1) (List.range n_samples)
      (⟨Function.update (Function.update (fun _ => []) 0 data) (0 + 1) (zerosLike data),
        0 + 1 + 1⟩ : Heap)
      0 (by omega) (by dsimp only; omega)
    rw [← hF] at hloop
    dsimp only at hloop
    obtain ⟨hm, hn⟩ := hloop
    dsimp only
    refine ⟨?_, by omega, by omega, by omega⟩
    rw [Function.update_noteq (show (0 : ℕ) ≠ F.next by omega)]
    rw [hm]
    rw [Function.update_noteq (show (0 : ℕ) ≠ 0 + 1 by omega), Function.update_same]

/-- The concrete store-passing run backing the C9 witness. -/
def heapRun : Heap × ℕ × ℕ × ℕ :=
  ((interpretHeap constPf oneRandn [[1, 2]] none 1 2).toOption).getD
    (⟨fun _ => [], 0⟩, 0, 0, 0)

/-- Witness for C9 on a concrete two-sample run. -/
theorem c9_batch_immutable_output_fresh_witness :
    interpretHeap constPf oneRandn [[1, 2]] none 1 2 = Except.ok heapRun ∧
    heapRun.1.mem heapRun.2.1 = [[1, 2]] ∧
    heapRun.2.2.2 ≠ heapRun.2.2.1 ∧
    heapRun.2.2.2 ≠ heapRun.2.1 :=
  have h : interpretHeap constPf oneRandn [[1, 2]] none 1 2 = Except.ok heapRun :=
    eq_ok_of_isOk _ _ rfl
  ⟨h, (c9_batch_immutable_output_fresh constPf oneRandn [[1, 2]] none 1 2
      heapRun.1 heapRun.2.1 heapRun.2.2.1 heapRun.2.2.2 h).1,
    (c9_batch_immutable_output_fresh constPf oneRandn [[1, 2]] none 1 2
      heapRun.1 heapRun.2.1 heapRun.2.2.1 heapRun.2.2.2 h).2.1,
    (c9_batch_immutable_output_fresh constPf oneRandn [[1, 2]] none 1 2
      heapRun.1 heapRun.2.1 heapRun.2.2.1 heapRun.2.2.2 h).2.2.1⟩

end SmoothGrad
